import Mathlib

/-!
# Verification of `golem/model.py` (persistence layer)

Shallow embedding of the golem persistence layer: the typed codec fields
(`RawCharField`, `BigIntegerField`, `EnumField`, `JsonField`), the
`Database.create_database` schema-version gate, the `Payment` constructor
invariant and the `BaseModel` timestamp fields, together with proofs of the
spec's testable properties about them.

Python exceptions are modelled with `Except PyErr`; Python's dynamically
typed inputs to the field encoders are modelled by the closed universe
`PyValue` of the value shapes that occur in this layer.
-/

/-- The error kinds raised by the codec layer: `TypeError` on encoding a
value of the wrong domain type, `ValueError` from `int(s, 16)` and from an
enum lookup with no matching symbol, and the format error raised by
`binascii` on malformed hex input. -/
inductive PyErr where
  | typeError
  | valueError
  | formatError
deriving DecidableEq

/-- The payment status enum of `model.py` (`PaymentStatus`), with ordinals
awaiting = 1, sent = 2, confirmed = 3. -/
inductive PaymentStatus where
  | awaiting
  | sent
  | confirmed
deriving DecidableEq

/-- The integer ordinal of a `PaymentStatus` member (`value.value` in
`EnumField.db_value`). -/
def PaymentStatus.value : PaymentStatus → Int
  | .awaiting => 1
  | .sent => 2
  | .confirmed => 3

/-- Closed universe of the dynamically typed Python values that reach the
field encoders in this layer.  `pyBool` is kept distinct from `pyInt`, but —
as in Python, where `bool` is a subclass of `int` — it counts as an integer
type for `isinstance(value, int)` checks. -/
inductive PyValue where
  | pyNone
  | pyBool (b : Bool)
  | pyInt (i : Int)
  | pyStr (s : String)
  | pyBytes (bs : List Nat)
  | pyStatus (s : PaymentStatus)
deriving DecidableEq

/-- Python's `isinstance(value, int)` over the `PyValue` universe: true for
`pyInt` and — because `bool` subclasses `int` — for `pyBool`. -/
def PyValue.isIntType : PyValue → Bool
  | .pyInt _ => true
  | .pyBool _ => true
  | _ => false

/-! ## Hexadecimal primitives

`format(value, 'x')` and `int(value, 16)` from `BigIntegerField`, and the
per-byte hex digits used by the `RawCharField` codec. -/

/-- The lowercase hex digit character for `d < 16`, as produced by Python's
`format(value, 'x')` and `binascii.hexlify`. -/
def hexDigit (d : Nat) : Char :=
  if d < 10 then Char.ofNat (48 + d) else Char.ofNat (87 + d)

/-- The value of one hex digit character, accepting both cases as
`int(s, 16)` and `binascii.unhexlify` do; `none` on a non-hex character. -/
def hexVal (c : Char) : Option Nat :=
  if '0' ≤ c ∧ c ≤ '9' then some (c.toNat - 48)
  else if 'a' ≤ c ∧ c ≤ 'f' then some (c.toNat - 87)
  else if 'A' ≤ c ∧ c ≤ 'F' then some (c.toNat - 55)
  else none

/-- Accumulator loop of `format(n, 'x')`: emits the hex digits of `n` (most
significant first) in front of `acc`. -/
def toHexAux : Nat → List Char → List Char
  | 0, acc => acc
  | n + 1, acc => toHexAux ((n + 1) / 16) (hexDigit ((n + 1) % 16) :: acc)
decreasing_by exact Nat.div_lt_self (Nat.succ_pos n) (by omega)

/-- Python's `format(n, 'x')` for a natural number: lowercase hex digits, no
prefix, no fixed width; `0` renders as `"0"`. -/
def toHex (n : Nat) : String :=
  if n = 0 then "0" else String.mk (toHexAux n [])

/-- Python's `format(i, 'x')` for an `int`: a `-` sign followed by the hex
digits of the absolute value when negative. -/
def formatHexInt (i : Int) : String :=
  if i < 0 then "-" ++ toHex i.natAbs else toHex i.toNat

/-- Left-to-right base-16 accumulation of `int(s, 16)` over the characters
of `s`; a non-hex character raises `ValueError`. -/
def parseHexDigits : List Char → Nat → Except PyErr Nat
  | [], acc => .ok acc
  | c :: cs, acc =>
    match hexVal c with
    | some d => parseHexDigits cs (16 * acc + d)
    | none => .error .valueError

/-- Character-level loop of `int(s, 16)`: an optional leading `-` sign
followed by a non-empty run of hex digits; the empty string (and a bare
sign) raise `ValueError`. -/
def parseHexIntChars : List Char → Except PyErr Int
  | [] => .error .valueError
  | c :: cs =>
    if c = '-' then
      if cs.isEmpty then .error .valueError
      else (parseHexDigits cs 0).map (fun n => -(n : Int))
    else
      (parseHexDigits (c :: cs) 0).map (fun n => (n : Int))

/-- Python's `int(s, 16)`, restricted to the inputs this layer produces and
stores.  Python's additional tolerance for surrounding whitespace, a `+`
sign and an `0x` prefix is outside the image of the encoder and not
modelled. -/
def parseHexInt (s : String) : Except PyErr Int :=
  parseHexIntChars s.data

/-! ## BigIntegerField -/

/-- `BigIntegerField.db_value`: raises `TypeError` unless
`isinstance(value, int)`, else returns `format(value, 'x')`. -/
def BigIntegerField.db_value : PyValue → Except PyErr String
  | .pyInt i => .ok (formatHexInt i)
  | .pyBool b => .ok (formatHexInt (if b then 1 else 0))
  | _ => .error .typeError

/-- `BigIntegerField.python_value`: returns `None` unchanged for a `NULL`
column value, else `int(value, 16)`. -/
def BigIntegerField.python_value : Option String → Except PyErr (Option Int)
  | none => .ok none
  | some s => (parseHexInt s).map some

/-! ## Supporting lemmas for the hex round trip -/

theorem hexVal_hexDigit {d : Nat} (hd : d < 16) : hexVal (hexDigit d) = some d := by
  interval_cases d <;> decide

theorem hexDigit_ne_dash {d : Nat} (hd : d < 16) : hexDigit d ≠ '-' := by
  interval_cases d <;> decide

/-- Number of hex digits that `toHexAux` emits for `n`. -/
def hexLen : Nat → Nat
  | 0 => 0
  | n + 1 => hexLen ((n + 1) / 16) + 1
decreasing_by exact Nat.div_lt_self (Nat.succ_pos n) (by omega)

theorem parseHexDigits_toHexAux :
    ∀ n acc a, parseHexDigits (toHexAux n acc) a = parseHexDigits acc (a * 16 ^ hexLen n + n)
  | 0, acc, a => by simp [toHexAux, hexLen]
  | n + 1, acc, a => by
    rw [toHexAux, hexLen]
    rw [parseHexDigits_toHexAux ((n + 1) / 16) (hexDigit ((n + 1) % 16) :: acc) a]
    have hlt : (n + 1) % 16 < 16 := Nat.mod_lt _ (by omega)
    simp only [parseHexDigits, hexVal_hexDigit hlt]
    congr 1
    have := Nat.div_add_mod (n + 1) 16
    ring_nf
    omega
decreasing_by exact Nat.div_lt_self (Nat.succ_pos n) (by omega)

theorem toHexAux_shape :
    ∀ n acc, n ≠ 0 → ∃ d rest, d < 16 ∧ toHexAux n acc = hexDigit d :: rest
  | 0, _, h => absurd rfl h
  | n + 1, acc, _ => by
    rw [toHexAux]
    rcases Nat.eq_zero_or_pos ((n + 1) / 16) with hz | hp
    · exact ⟨(n + 1) % 16, acc, Nat.mod_lt _ (by omega), by rw [hz, toHexAux]⟩
    · exact toHexAux_shape ((n + 1) / 16) _ (by omega)
decreasing_by exact Nat.div_lt_self (Nat.succ_pos n) (by omega)

theorem parseHexInt_toHex (n : Nat) : parseHexInt (toHex n) = .ok (n : Int) := by
  by_cases h0 : n = 0
  · subst h0; rfl
  · rw [toHex, if_neg h0]
    obtain ⟨d, rest, hd, hshape⟩ := toHexAux_shape n [] h0
    show parseHexIntChars (toHexAux n []) = _
    rw [hshape, parseHexIntChars, if_neg (hexDigit_ne_dash hd), ← hshape,
      parseHexDigits_toHexAux n [] 0]
    simp [parseHexDigits, Except.map]

/-! ## RawCharField

`RawCharField.db_value` is `str(encode_hex(value))` and
`RawCharField.python_value` is `decode_hex(value)`, where `encode_hex` and
`decode_hex` come from `golem.utils`, which is not part of the source tree
under verification; both are modelled from the spec. -/

/-- Modelled from the spec: `golem.utils.encode_hex` (absent from the
source tree) hex-encodes a byte sequence to a lowercase hex string, two
digits per byte, no prefix. -/
def encode_hex (b : List Nat) : String :=
  String.mk (b.foldr (fun x acc => hexDigit (x / 16) :: hexDigit (x % 16) :: acc) [])

/-- Modelled from the spec: character-level loop of `golem.utils.decode_hex`
(absent from the source tree), which hex-decodes a string back to bytes and
fails with a `FormatError` on odd-length or non-hex-digit input. -/
def decodeHexChars : List Char → Except PyErr (List Nat)
  | [] => .ok []
  | [_] => .error .formatError
  | c1 :: c2 :: rest =>
    match hexVal c1, hexVal c2 with
    | some d1, some d2 => (decodeHexChars rest).map (fun bs => (16 * d1 + d2) :: bs)
    | _, _ => .error .formatError

/-- Modelled from the spec: `golem.utils.decode_hex` on a whole string. -/
def decode_hex (s : String) : Except PyErr (List Nat) :=
  decodeHexChars s.data

/-- `RawCharField.db_value`: `str(encode_hex(value))` (`str` of a string is
the identity). -/
def RawCharField.db_value (b : List Nat) : String :=
  encode_hex b

/-- `RawCharField.python_value`: `decode_hex(value)`. -/
def RawCharField.python_value (s : String) : Except PyErr (List Nat) :=
  decode_hex s

/-! ## EnumField (instantiated at `PaymentStatus`, the enum of this module) -/

/-- Python's `PaymentStatus(value)` enum lookup: the member with the given
ordinal, or `ValueError` when no member matches. -/
def PaymentStatus.ofInt (i : Int) : Except PyErr PaymentStatus :=
  if i = 1 then .ok .awaiting
  else if i = 2 then .ok .sent
  else if i = 3 then .ok .confirmed
  else .error .valueError

/-- `EnumField.db_value`: raises `TypeError` unless
`isinstance(value, self.enum_type)`, else returns the member's ordinal. -/
def EnumField.db_value : PyValue → Except PyErr Int
  | .pyStatus s => .ok s.value
  | _ => .error .typeError

/-- `EnumField.python_value`: `self.enum_type(value)`. -/
def EnumField.python_value (i : Int) : Except PyErr PaymentStatus :=
  PaymentStatus.ofInt i

/-! ## Round-trip and error lemmas for the byte-level hex codec -/

theorem decodeHexChars_encode : ∀ b : List Nat, (∀ x ∈ b, x < 256) →
    decodeHexChars (b.foldr (fun x acc => hexDigit (x / 16) :: hexDigit (x % 16) :: acc) [])
      = .ok b
  | [], _ => rfl
  | x :: xs, h => by
    have hx : x < 256 := h x (List.mem_cons_self x xs)
    have h1 : x / 16 < 16 := Nat.div_lt_of_lt_mul (by omega)
    have h2 : x % 16 < 16 := Nat.mod_lt _ (by omega)
    have ih := decodeHexChars_encode xs (fun y hy => h y (List.mem_cons_of_mem x hy))
    simp only [List.foldr_cons, decodeHexChars, hexVal_hexDigit h1, hexVal_hexDigit h2, ih]
    simp [Except.map, Nat.div_add_mod]

theorem decodeHexChars_odd : ∀ l : List Char, l.length % 2 = 1 →
    decodeHexChars l = .error .formatError
  | [], h => by simp at h
  | [_], _ => rfl
  | c1 :: c2 :: rest, h => by
    have hr : rest.length % 2 = 1 := by
      simp only [List.length_cons] at h
      omega
    cases hc1 : hexVal c1 with
    | none => simp [decodeHexChars, hc1]
    | some d1 =>
      cases hc2 : hexVal c2 with
      | none => simp [decodeHexChars, hc1, hc2]
      | some d2 =>
        simp [decodeHexChars, hc1, hc2, decodeHexChars_odd rest hr, Except.map]

theorem decodeHexChars_badChar : ∀ l : List Char, (∃ c ∈ l, hexVal c = none) →
    decodeHexChars l = .error .formatError
  | [], h => by
    obtain ⟨c, hc, _⟩ := h
    exact absurd hc (List.not_mem_nil c)
  | [_], _ => rfl
  | c1 :: c2 :: rest, h => by
    cases hc1 : hexVal c1 with
    | none => simp [decodeHexChars, hc1]
    | some d1 =>
      cases hc2 : hexVal c2 with
      | none => simp [decodeHexChars, hc1, hc2]
      | some d2 =>
        obtain ⟨c, hc, hcv⟩ := h
        have hcr : c ∈ rest := by
          rcases List.mem_cons.mp hc with rfl | hc'
          · rw [hc1] at hcv; exact absurd hcv (by simp)
          · rcases List.mem_cons.mp hc' with rfl | hc''
            · rw [hc2] at hcv; exact absurd hcv (by simp)
            · exact hc''
        simp [decodeHexChars, hc1, hc2, decodeHexChars_badChar rest ⟨c, hcr, hcv⟩, Except.map]

/-! ## Claim C1 -/

/-- C1: for every non-negative integer `v` (in particular all `v` up to and
beyond `2^256`), `BigIntegerField.db_value` encodes `v` as its hex string
and `BigIntegerField.python_value` decodes that string back to exactly `v`:
the codec stores arbitrary-precision integers with no truncation to the
native 64-bit column range. -/
theorem claim_C1_bigIntegerField_roundtrip (v : Int) (h : 0 ≤ v) :
    BigIntegerField.db_value (.pyInt v) = .ok (formatHexInt v) ∧
    BigIntegerField.python_value (some (formatHexInt v)) = .ok (some v) := by
  refine ⟨rfl, ?_⟩
  show (parseHexInt (formatHexInt v)).map some = _
  rw [formatHexInt, if_neg (by omega : ¬ v < 0), parseHexInt_toHex]
  simp [Except.map, Int.toNat_of_nonneg h]

/-- Witness for C1 at `v = 2^256`. -/
theorem claim_C1_witness :
    (0 : Int) ≤ 2 ^ 256 ∧
    BigIntegerField.python_value (some (formatHexInt (2 ^ 256))) = .ok (some (2 ^ 256)) :=
  ⟨by positivity, (claim_C1_bigIntegerField_roundtrip (2 ^ 256) (by positivity)).2⟩

/-! ## Claim C5 -/

/-- C5 counterexample: the claim says decoding an empty stored value is the
identity on it rather than raising, but `BigIntegerField.python_value`
applied to the empty string runs `int('', 16)`, which raises `ValueError`. -/
theorem claim_C5_counterexample :
    BigIntegerField.python_value (some "") = .error .valueError := rfl

/-- C5 (amended): `BigIntegerField.db_value` raises `TypeError` for every
input that is not of integer type; `BigIntegerField.python_value` of a
`NULL` stored value returns `None` unchanged (representing absence), while
decoding the empty string raises `ValueError`. -/
theorem claim_C5_bigIntegerField_errors :
    (∀ v : PyValue, v.isIntType = false → BigIntegerField.db_value v = .error .typeError) ∧
    BigIntegerField.python_value none = .ok none ∧
    BigIntegerField.python_value (some "") = .error .valueError := by
  refine ⟨?_, rfl, rfl⟩
  intro v hv
  cases v with
  | pyInt i => exact absurd hv (by simp [PyValue.isIntType])
  | pyBool b => exact absurd hv (by simp [PyValue.isIntType])
  | pyNone => rfl
  | pyStr s => rfl
  | pyBytes bs => rfl
  | pyStatus s => rfl

/-- Witness for C5 at the non-integer input `pyStr "x"`. -/
theorem claim_C5_witness :
    PyValue.isIntType (.pyStr "x") = false ∧
    BigIntegerField.db_value (.pyStr "x") = .error .typeError :=
  ⟨rfl, claim_C5_bigIntegerField_errors.1 (.pyStr "x") rfl⟩

/-! ## Claim C6 -/

/-- C6: for every member `s` of the declared enum, decoding the encoding of
`s` yields `s` back; `EnumField.db_value` raises `TypeError` on any value
that is not a member of the declared enum; `EnumField.python_value` raises
`ValueError` on any ordinal with no matching member, never silently mapping
to a default. -/
theorem claim_C6_enumField_roundtrip_and_errors :
    (∀ s : PaymentStatus, EnumField.db_value (.pyStatus s) = .ok s.value ∧
      EnumField.python_value s.value = .ok s) ∧
    (∀ v : PyValue, (∀ s : PaymentStatus, v ≠ .pyStatus s) →
      EnumField.db_value v = .error .typeError) ∧
    (∀ i : Int, (∀ s : PaymentStatus, i ≠ s.value) →
      EnumField.python_value i = .error .valueError) := by
  refine ⟨?_, ?_, ?_⟩
  · intro s
    cases s <;> exact ⟨rfl, rfl⟩
  · intro v hv
    cases v with
    | pyStatus s => exact absurd rfl (hv s)
    | pyNone => rfl
    | pyBool b => rfl
    | pyInt i => rfl
    | pyStr s => rfl
    | pyBytes bs => rfl
  · intro i hi
    have h1 := hi .awaiting
    have h2 := hi .sent
    have h3 := hi .confirmed
    simp only [PaymentStatus.value] at h1 h2 h3
    simp [EnumField.python_value, PaymentStatus.ofInt, h1, h2, h3]

/-- Witness for C6: encoding a non-member (`pyInt 7`) raises `TypeError`
and decoding the unmapped ordinal `0` raises `ValueError`. -/
theorem claim_C6_witness :
    EnumField.db_value (.pyInt 7) = .error .typeError ∧
    EnumField.python_value 0 = .error .valueError :=
  ⟨claim_C6_enumField_roundtrip_and_errors.2.1 (.pyInt 7) (fun s => by cases s <;> decide),
   claim_C6_enumField_roundtrip_and_errors.2.2 0 (fun s => by cases s <;> decide)⟩

/-! ## Claim C8 -/

/-- C8: for every byte sequence `b`, `RawCharField.python_value` of
`RawCharField.db_value b` yields `b` back; decoding a string of odd length,
or one containing a non-hex character, fails with a `FormatError`. -/
theorem claim_C8_rawCharField_roundtrip_and_errors :
    (∀ b : List Nat, (∀ x ∈ b, x < 256) →
      RawCharField.python_value (RawCharField.db_value b) = .ok b) ∧
    (∀ s : String, s.data.length % 2 = 1 →
      RawCharField.python_value s = .error .formatError) ∧
    (∀ s : String, (∃ c ∈ s.data, hexVal c = none) →
      RawCharField.python_value s = .error .formatError) := by
  refine ⟨?_, ?_, ?_⟩
  · intro b hb
    exact decodeHexChars_encode b hb
  · intro s hs
    exact decodeHexChars_odd s.data hs
  · intro s hs
    exact decodeHexChars_badChar s.data hs

/-- Witness for C8: the bytes `[171, 205]` round-trip, `"abc"` (odd length)
and `"zz"` (non-hex) fail with `FormatError`. -/
theorem claim_C8_witness :
    RawCharField.python_value (RawCharField.db_value [171, 205]) = .ok [171, 205] ∧
    RawCharField.python_value "abc" = .error .formatError ∧
    RawCharField.python_value "zz" = .error .formatError :=
  ⟨claim_C8_rawCharField_roundtrip_and_errors.1 [171, 205] (by decide),
   claim_C8_rawCharField_roundtrip_and_errors.2.1 "abc" (by decide),
   claim_C8_rawCharField_roundtrip_and_errors.2.2 "zz" ⟨'z', by decide, by decide⟩⟩

/-! ## JsonField

`JsonField.db_value` is `jsonpickle.dumps(value)` and
`JsonField.python_value` is `jsonpickle.loads(value)`.  On plain structured
values (nested mappings, sequences and scalars) jsonpickle defers to its
JSON backend, and with its default `keys=False` a mapping key that is not a
string is coerced by the backend to its decimal string form.  The model
works at the level of JSON values: the textual serialization of a
string-keyed JSON tree and its re-parse are mutually inverse and are not
re-modelled here; what the model captures is the backend's key coercion,
which is where round-trip fidelity can be lost. -/

/-- A mapping key of a structured Python value: Python dict keys in this
layer are strings or integers. -/
inductive JKey where
  | kint (i : Int)
  | kstr (s : String)

/-- A structured Python value: nested mappings, sequences and scalars (the
domain of the StructuredValue codec). -/
inductive JPy where
  | null
  | bool (b : Bool)
  | int (i : Int)
  | str (s : String)
  | list (xs : List JPy)
  | dict (kvs : List (JKey × JPy))

/-- A JSON value as held by jsonpickle's backend after parsing: object keys
are always strings. -/
inductive JVal where
  | null
  | bool (b : Bool)
  | int (i : Int)
  | str (s : String)
  | arr (xs : List JVal)
  | obj (kvs : List (String × JVal))

/-- The JSON backend's rendering of a mapping key under jsonpickle's
default `keys=False`: a string key is kept, an integer key is coerced to
its decimal string. -/
def JKey.encodeKey : JKey → String
  | .kstr s => s
  | .kint i => toString i

mutual

/-- `JsonField.db_value` (`jsonpickle.dumps`) on a plain structured value,
at the JSON-value level. -/
def JsonField.db_value : JPy → JVal
  | .null => .null
  | .bool b => .bool b
  | .int i => .int i
  | .str s => .str s
  | .list xs => .arr (JsonField.encodeList xs)
  | .dict kvs => .obj (JsonField.encodeEntries kvs)

def JsonField.encodeList : List JPy → List JVal
  | [] => []
  | x :: xs => JsonField.db_value x :: JsonField.encodeList xs

def JsonField.encodeEntries : List (JKey × JPy) → List (String × JVal)
  | [] => []
  | (k, v) :: kvs => (k.encodeKey, JsonField.db_value v) :: JsonField.encodeEntries kvs

end

mutual

/-- `JsonField.python_value` (`jsonpickle.loads`) on a plain JSON tree, at
the JSON-value level: every parsed object key is a string. -/
def JsonField.python_value : JVal → JPy
  | .null => .null
  | .bool b => .bool b
  | .int i => .int i
  | .str s => .str s
  | .arr xs => .list (JsonField.decodeList xs)
  | .obj kvs => .dict (JsonField.decodeEntries kvs)

def JsonField.decodeList : List JVal → List JPy
  | [] => []
  | x :: xs => JsonField.python_value x :: JsonField.decodeList xs

def JsonField.decodeEntries : List (String × JVal) → List (JKey × JPy)
  | [] => []
  | (k, v) :: kvs => (JKey.kstr k, JsonField.python_value v) :: JsonField.decodeEntries kvs

end

mutual

/-- Whether every mapping key of a structured value, at every nesting
depth, is a string. -/
def JPy.allStrKeys : JPy → Bool
  | .null => true
  | .bool _ => true
  | .int _ => true
  | .str _ => true
  | .list xs => JPy.allStrKeysList xs
  | .dict kvs => JPy.allStrKeysEntries kvs

def JPy.allStrKeysList : List JPy → Bool
  | [] => true
  | x :: xs => JPy.allStrKeys x && JPy.allStrKeysList xs

def JPy.allStrKeysEntries : List (JKey × JPy) → Bool
  | [] => true
  | (k, v) :: kvs =>
    (match k with
     | .kstr _ => true
     | .kint _ => false) && JPy.allStrKeys v && JPy.allStrKeysEntries kvs

end

mutual

theorem jsonField_decode_encode : ∀ x : JPy, x.allStrKeys = true →
    JsonField.python_value (JsonField.db_value x) = x
  | .null, _ => rfl
  | .bool _, _ => rfl
  | .int _, _ => rfl
  | .str _, _ => rfl
  | .list xs, h => by
    rw [JsonField.db_value, JsonField.python_value,
      jsonField_decode_encode_list xs (by simpa [JPy.allStrKeys] using h)]
  | .dict kvs, h => by
    rw [JsonField.db_value, JsonField.python_value,
      jsonField_decode_encode_entries kvs (by simpa [JPy.allStrKeys] using h)]

theorem jsonField_decode_encode_list : ∀ xs : List JPy, JPy.allStrKeysList xs = true →
    JsonField.decodeList (JsonField.encodeList xs) = xs
  | [], _ => rfl
  | x :: xs, h => by
    rw [JPy.allStrKeysList, Bool.and_eq_true] at h
    rw [JsonField.encodeList, JsonField.decodeList,
      jsonField_decode_encode x h.1, jsonField_decode_encode_list xs h.2]

theorem jsonField_decode_encode_entries :
    ∀ kvs : List (JKey × JPy), JPy.allStrKeysEntries kvs = true →
    JsonField.decodeEntries (JsonField.encodeEntries kvs) = kvs
  | [], _ => rfl
  | (JKey.kstr s, v) :: kvs, h => by
    rw [JPy.allStrKeysEntries, Bool.and_eq_true, Bool.and_eq_true] at h
    rw [JsonField.encodeEntries, JsonField.decodeEntries, JKey.encodeKey,
      jsonField_decode_encode v h.1.2, jsonField_decode_encode_entries kvs h.2]
  | (JKey.kint i, v) :: kvs, h => by
    rw [JPy.allStrKeysEntries] at h
    simp at h

end

/-! ## Claim C7 -/

/-- C7 counterexample: the mapping `{1: None}` has an integer key; the JSON
backend renders it as the object `{"1": null}`, so decoding the encoding
yields `{"1": None}` with a *string* key — not the original value. -/
theorem claim_C7_counterexample :
    JsonField.python_value (JsonField.db_value (.dict [(.kint 1, .null)]))
      ≠ .dict [(.kint 1, .null)] := by
  rw [JsonField.db_value, JsonField.encodeEntries, JsonField.encodeEntries,
    JsonField.python_value, JsonField.decodeEntries, JsonField.decodeEntries]
  intro h
  rw [JPy.dict.injEq, List.cons.injEq, Prod.mk.injEq] at h
  exact JKey.noConfusion h.1.1

/-- C7 (amended): for every structured value `x` composed of nested
mappings, sequences and scalars *whose mapping keys are all strings*,
decoding the StructuredValue codec's encoding of `x` yields `x`; a mapping
with an integer key is returned with that key coerced to its decimal
string, because jsonpickle is called with its default `keys=False`. -/
theorem claim_C7_jsonField_roundtrip (x : JPy) (h : x.allStrKeys = true) :
    JsonField.python_value (JsonField.db_value x) = x :=
  jsonField_decode_encode x h

/-- Witness for C7 on a nested string-keyed value. -/
theorem claim_C7_witness :
    JPy.allStrKeys (.dict [(.kstr "a", .list [.int 3, .str "b", .null]),
      (.kstr "c", .dict [(.kstr "d", .bool true)])]) = true ∧
    JsonField.python_value (JsonField.db_value (.dict [(.kstr "a", .list [.int 3, .str "b", .null]),
      (.kstr "c", .dict [(.kstr "d", .bool true)])]))
      = .dict [(.kstr "a", .list [.int 3, .str "b", .null]),
      (.kstr "c", .dict [(.kstr "d", .bool true)])] :=
  ⟨rfl, claim_C7_jsonField_roundtrip (.dict [(.kstr "a", .list [.int 3, .str "b", .null]),
      (.kstr "c", .dict [(.kstr "d", .bool true)])]) rfl⟩

/-! ## Payment construction (claim C9) -/

/-- A `Payment` row instance: the declared columns of the `Payment` model.
`details` is kept as an `Option` so that the constructor invariant — it is
never `None` after construction — is expressible. -/
structure Payment where
  subtask : Option String
  status : PaymentStatus
  payee : Option (List Nat)
  value : Option Int
  details : Option JPy

/-- `Payment(**kwargs)` construction: peewee's `Model.__init__` gives each
field its keyword value if passed, else its declared default
(`PaymentStatus.awaiting` for `status`), else `None`; then
`Payment.__init__` replaces a `None`-valued `details` with the empty dict
`{}`. -/
def Payment.init (subtask : Option String) (status : Option PaymentStatus)
    (payee : Option (List Nat)) (value : Option Int) (details : Option JPy) : Payment :=
  { subtask := subtask
    status := status.getD .awaiting
    payee := payee
    value := value
    details := some (details.getD (.dict [])) }

/-- C9: constructing a `Payment` with an absent/null `details` yields the
canonical empty mapping `{}` for `details`, and for every constructed
`Payment` the `details` field is non-null after construction. -/
theorem claim_C9_payment_details (st : Option String) (stat : Option PaymentStatus)
    (p : Option (List Nat)) (v : Option Int) :
    (Payment.init st stat p v none).details = some (.dict []) ∧
    ∀ d : Option JPy, ((Payment.init st stat p v d).details).isSome = true := by
  refine ⟨rfl, ?_⟩
  intro d
  rfl

/-! ## Schema manager (`Database.create_database`)

The SQLite store is modelled as the engine-level `PRAGMA user_version`
marker plus the set of existing tables, each carried with its row count
(the claims are about emptiness, so rows are counted, not enumerated).
`db.drop_tables(tables, safe=True)` drops each listed table, tolerating an
absent table; `db.create_tables(tables, safe=True)` creates each listed
table empty when absent and leaves it untouched when present. -/

/-- The database file state: the `PRAGMA user_version` marker and the
existing tables with their row counts. -/
structure Store where
  userVersion : Int
  tables : List (String × Nat)
deriving DecidableEq

/-- The peewee-derived table names (lowercased class names) of the twelve
models listed in `Database.create_database`. -/
def managedTables : List String :=
  ["account", "expectedincome", "globalrank", "hardwarepreset", "income",
   "knownhosts", "localrank", "neighbourlocrank", "payment",
   "receivedpayment", "stats", "taskpreset"]

/-- The row count of table `t`, or `none` when the table does not exist. -/
def Store.lookupTable (s : Store) (t : String) : Option Nat :=
  (s.tables.find? (fun p => p.1 == t)).map (fun p => p.2)

/-- `DROP TABLE IF EXISTS t`: removes the table and all its rows; a no-op
when the table is absent. -/
def Store.dropTable (s : Store) (t : String) : Store :=
  { s with tables := s.tables.filter (fun p => !(p.1 == t)) }

/-- `db.drop_tables(ts, safe=True)`: drop each listed table in turn. -/
def Store.dropTables (s : Store) (ts : List String) : Store :=
  ts.foldl Store.dropTable s

/-- `CREATE TABLE IF NOT EXISTS t`: a new empty table when absent, the
store unchanged when present. -/
def Store.createTableSafe (s : Store) (t : String) : Store :=
  if (s.lookupTable t).isSome then s
  else { s with tables := s.tables ++ [(t, 0)] }

/-- `db.create_tables(ts, safe=True)`: create each listed table in turn. -/
def Store.createTablesSafe (s : Store) (ts : List String) : Store :=
  ts.foldl Store.createTableSafe s

/-- The engine actions `Database.create_database` can perform. -/
inductive DbAction where
  | dropTables (ts : List String)
  | setUserVersion (v : Int)
  | createTableSafe (t : String)
deriving DecidableEq

/-- `Database.create_database`, instrumented with the trace of engine
actions it performs: read the stored `user_version`; when it differs from
the expected schema version, drop all managed tables and write the marker;
finally issue a safe create for every managed table.
`Database.SCHEMA_VERSION` is the class constant (5), taken here as the
parameter `v` because the claims compare a store reconciled at version `N`
with a reconciliation at `N + 1` (the constant is bumped across releases to
recreate the database). -/
def createDatabaseT (v : Int) (s : Store) : Store × List DbAction :=
  let version := s.userVersion
  let step :=
    if version ≠ v then
      ({ s.dropTables managedTables with userVersion := v },
       [DbAction.dropTables managedTables, DbAction.setUserVersion v])
    else (s, [])
  (step.1.createTablesSafe managedTables,
   step.2 ++ managedTables.map DbAction.createTableSafe)

/-- `Database.create_database` as a state transformer (the trace erased). -/
def Database.create_database (v : Int) (s : Store) : Store :=
  (createDatabaseT v s).1

/-- `Database.SCHEMA_VERSION` in the source under verification. -/
def Database.SCHEMA_VERSION : Int := 5

/-! ### Store lemmas -/

theorem Store.lookupTable_dropTable_self (s : Store) (t : String) :
    (s.dropTable t).lookupTable t = none := by
  rw [Store.dropTable, Store.lookupTable, Option.map_eq_none']
  rw [List.find?_eq_none]
  intro x hx
  rw [List.mem_filter] at hx
  have := hx.2
  simp only [Bool.not_eq_true'] at this
  simp [this]

theorem Store.lookupTable_dropTable_none (s : Store) (t t' : String)
    (h : s.lookupTable t = none) : (s.dropTable t').lookupTable t = none := by
  rw [Store.lookupTable, Option.map_eq_none', List.find?_eq_none] at h ⊢
  intro x hx
  exact h x (List.mem_filter.mp hx).1

theorem Store.lookupTable_dropTables_none (s : Store) (ts : List String) (t : String)
    (h : s.lookupTable t = none) : (s.dropTables ts).lookupTable t = none := by
  induction ts generalizing s with
  | nil => exact h
  | cons u us ih =>
    rw [Store.dropTables, List.foldl_cons]
    exact ih (s.dropTable u) (Store.lookupTable_dropTable_none s t u h)

theorem Store.lookupTable_dropTables_mem (s : Store) (ts : List String) (t : String)
    (ht : t ∈ ts) : (s.dropTables ts).lookupTable t = none := by
  induction ts generalizing s with
  | nil => exact absurd ht (List.not_mem_nil t)
  | cons t' ts ih =>
    rw [Store.dropTables, List.foldl_cons]
    rcases List.mem_cons.mp ht with rfl | ht'
    · exact Store.lookupTable_dropTables_none (s.dropTable t) ts t
        (Store.lookupTable_dropTable_self s t)
    · exact ih (s.dropTable t') ht'

theorem Store.userVersion_createTablesSafe (s : Store) (ts : List String) :
    (s.createTablesSafe ts).userVersion = s.userVersion := by
  induction ts generalizing s with
  | nil => rfl
  | cons t ts ih =>
    rw [Store.createTablesSafe, List.foldl_cons]
    rw [show (List.foldl Store.createTableSafe (s.createTableSafe t) ts)
      = (s.createTableSafe t).createTablesSafe ts from rfl]
    rw [ih]
    rw [Store.createTableSafe]
    split <;> rfl

theorem Store.lookupTable_createTableSafe_absent (s : Store) (t : String)
    (h : s.lookupTable t = none) : (s.createTableSafe t).lookupTable t = some 0 := by
  rw [Store.createTableSafe, h]
  simp only [Option.isSome_none, Bool.false_eq_true, if_false]
  rw [Store.lookupTable] at h ⊢
  rw [Option.map_eq_none'] at h
  rw [List.find?_append, h]
  simp

theorem Store.lookupTable_createTableSafe_some (s : Store) (t t' : String) (x : Nat)
    (h : s.lookupTable t = some x) : (s.createTableSafe t').lookupTable t = some x := by
  rw [Store.createTableSafe]
  split
  · exact h
  · rw [Store.lookupTable] at h ⊢
    obtain ⟨p, hp, hpx⟩ := Option.map_eq_some'.mp h
    rw [List.find?_append, hp]
    simp [hpx]

theorem Store.lookupTable_createTablesSafe_some (s : Store) (ts : List String)
    (t : String) (x : Nat) (h : s.lookupTable t = some x) :
    (s.createTablesSafe ts).lookupTable t = some x := by
  induction ts generalizing s with
  | nil => exact h
  | cons t' ts ih =>
    rw [Store.createTablesSafe, List.foldl_cons]
    exact ih (s.createTableSafe t') (Store.lookupTable_createTableSafe_some s t t' x h)

theorem Store.lookupTable_createTablesSafe_mem (s : Store) (ts : List String)
    (t : String) (ht : t ∈ ts)
    (h : s.lookupTable t = none ∨ s.lookupTable t = some 0) :
    (s.createTablesSafe ts).lookupTable t = some 0 := by
  induction ts generalizing s with
  | nil => exact absurd ht (List.not_mem_nil t)
  | cons t' ts ih =>
    rw [Store.createTablesSafe, List.foldl_cons]
    rcases List.mem_cons.mp ht with rfl | ht'
    · have hsome : (s.createTableSafe t).lookupTable t = some 0 := by
        rcases h with h | h
        · exact Store.lookupTable_createTableSafe_absent s t h
        · exact Store.lookupTable_createTableSafe_some s t t 0 h
      exact Store.lookupTable_createTablesSafe_some _ ts t 0 hsome
    · refine ih (s.createTableSafe t') ht' ?_
      rcases h with h | h
      · rw [Store.createTableSafe]
        split
        · exact Or.inl h
        · rw [Store.lookupTable, Option.map_eq_none'] at h
          by_cases htt : t' = t
          · subst htt
            right
            rw [Store.lookupTable, List.find?_append, h]
            simp
          · left
            rw [Store.lookupTable, Option.map_eq_none', List.find?_append, h]
            simp only [Option.none_or]
            rw [List.find?_eq_none]
            intro x hx
            rw [List.mem_singleton] at hx
            subst hx
            simp [htt]
      · exact Or.inr (Store.lookupTable_createTableSafe_some s t t' 0 h)

theorem Store.createTablesSafe_of_present (s : Store) (ts : List String)
    (h : ∀ t ∈ ts, (s.lookupTable t).isSome = true) : s.createTablesSafe ts = s := by
  induction ts with
  | nil => rfl
  | cons t ts ih =>
    rw [Store.createTablesSafe, List.foldl_cons, Store.createTableSafe,
      if_pos (h t (List.mem_cons_self t ts))]
    exact ih (fun u hu => h u (List.mem_cons_of_mem t hu))

attribute [irreducible] Store.dropTables Store.createTablesSafe

/-! ### The two branch equations of `createDatabaseT` -/

theorem createDatabaseT_mismatch (s : Store) (v : Int) (h : s.userVersion ≠ v) :
    createDatabaseT v s =
      (({ s.dropTables managedTables with userVersion := v }).createTablesSafe managedTables,
       [DbAction.dropTables managedTables, DbAction.setUserVersion v]
         ++ managedTables.map DbAction.createTableSafe) := by
  rw [createDatabaseT]
  simp only [if_pos h]

theorem createDatabaseT_match (s : Store) (v : Int) (h : s.userVersion = v) :
    createDatabaseT v s =
      (s.createTablesSafe managedTables, managedTables.map DbAction.createTableSafe) := by
  rw [createDatabaseT]
  have hc : ¬ (s.userVersion ≠ v) := fun hh => hh h
  simp only [if_neg hc, List.nil_append]

/-- When the stored marker already equals the expected version and every
managed table exists, `create_database` is the identity on the store. -/
theorem createDatabase_of_matching (s1 : Store) (v : Int) (hver : s1.userVersion = v)
    (htab : ∀ t ∈ managedTables, s1.lookupTable t = some 0) :
    Database.create_database v s1 = s1 := by
  have heq2 := createDatabaseT_match s1 v hver
  have htab2 : ∀ t ∈ managedTables, (s1.lookupTable t).isSome = true := by
    intro t ht
    rw [htab t ht]
    rfl
  calc Database.create_database v s1 = (createDatabaseT v s1).1 := rfl
    _ = (s1.createTablesSafe managedTables, managedTables.map DbAction.createTableSafe).1 := by
          rw [heq2]
    _ = s1.createTablesSafe managedTables := rfl
    _ = s1 := Store.createTablesSafe_of_present s1 managedTables htab2

/-- On a version mismatch, `create_database` leaves the marker at the
expected version and every managed table existing and empty. -/
theorem createDatabase_reset (s : Store) (v : Int) (h : v ≠ s.userVersion) :
    (Database.create_database v s).userVersion = v ∧
    ∀ t ∈ managedTables, (Database.create_database v s).lookupTable t = some 0 := by
  have hcond : s.userVersion ≠ v := fun he => h he.symm
  have hfst : Database.create_database v s
      = ({ s.dropTables managedTables with userVersion := v }).createTablesSafe managedTables := by
    rw [Database.create_database, createDatabaseT_mismatch s v hcond]
  constructor
  · rw [hfst, Store.userVersion_createTablesSafe]
  · intro t ht
    rw [hfst]
    refine Store.lookupTable_createTablesSafe_mem
      { s.dropTables managedTables with userVersion := v } managedTables t ht (Or.inl ?_)
    exact Store.lookupTable_dropTables_mem s managedTables t ht

/-! ## Claim C2 -/

/-- C2: when the stored schema-version marker differs from the expected
version, `Database.create_database` drops every managed entity's table,
writes the marker to the expected version and recreates all managed tables:
a store previously at version `N` reconciled at `N + 1` (or any expected
version different from the stored one) ends with the marker reading the
expected version and every managed table existing with zero rows. -/
theorem claim_C2_version_mismatch_resets (s : Store) (v : Int) (h : v ≠ s.userVersion) :
    (Database.create_database v s).userVersion = v ∧
    ∀ t ∈ managedTables, (Database.create_database v s).lookupTable t = some 0 :=
  createDatabase_reset s v h

/-- Witness for C2: a store at version 4 holding 3 `payment` rows,
reconciled at version 5, ends at version 5 with the `payment` table empty. -/
theorem claim_C2_witness :
    (5 : Int) ≠ (Store.mk 4 [("payment", 3)]).userVersion ∧
    (Database.create_database 5 (Store.mk 4 [("payment", 3)])).userVersion = 5 ∧
    (Database.create_database 5 (Store.mk 4 [("payment", 3)])).lookupTable "payment" = some 0 :=
  ⟨by decide, (claim_C2_version_mismatch_resets (Store.mk 4 [("payment", 3)]) 5 (by decide)).1,
   (claim_C2_version_mismatch_resets (Store.mk 4 [("payment", 3)]) 5 (by decide)).2
     "payment" (by decide)⟩

/-! ## Claim C3 -/

/-- C3: reconciliation is idempotent with respect to the version marker:
after a first `create_database` run at expected version `v` on a mismatched
store (which performs the drop of the managed tables and the marker write),
a second run at the same `v` performs no drop and no marker write — its
trace consists only of safe table-existence creation actions — and leaves
the store unchanged. -/
theorem claim_C3_reconcile_idempotent (s : Store) (v : Int) (h : v ≠ s.userVersion) :
    DbAction.dropTables managedTables ∈ (createDatabaseT v s).2 ∧
    DbAction.setUserVersion v ∈ (createDatabaseT v s).2 ∧
    (∀ ts, DbAction.dropTables ts ∉ (createDatabaseT v (Database.create_database v s)).2) ∧
    (∀ w, DbAction.setUserVersion w ∉ (createDatabaseT v (Database.create_database v s)).2) ∧
    (∀ a ∈ (createDatabaseT v (Database.create_database v s)).2,
      ∃ t, a = DbAction.createTableSafe t) ∧
    Database.create_database v (Database.create_database v s)
      = Database.create_database v s := by
  have hcond : s.userVersion ≠ v := fun he => h he.symm
  have hver : (Database.create_database v s).userVersion = v := (createDatabase_reset s v h).1
  have htabs := (createDatabase_reset s v h).2
  have htrace1 := createDatabaseT_mismatch s v hcond
  have heq2 := createDatabaseT_match (Database.create_database v s) v hver
  refine ⟨?_, ?_, ?_, ?_, ?_, ?_⟩
  · rw [htrace1]
    exact List.mem_append_left _ (by simp)
  · rw [htrace1]
    exact List.mem_append_left _ (by simp)
  · intro ts hmem
    rw [heq2] at hmem
    obtain ⟨t, _, ht⟩ := List.mem_map.mp hmem
    exact DbAction.noConfusion ht
  · intro w hmem
    rw [heq2] at hmem
    obtain ⟨t, _, ht⟩ := List.mem_map.mp hmem
    exact DbAction.noConfusion ht
  · intro a ha
    rw [heq2] at ha
    obtain ⟨t, _, ht⟩ := List.mem_map.mp ha
    exact ⟨t, ht.symm⟩
  · exact createDatabase_of_matching (Database.create_database v s) v hver htabs

/-- Witness for C3: a store at version 0 with 3 `payment` rows, reconciled
twice at version 5 — the first trace contains the drop, and the second run
leaves the store unchanged. -/
theorem claim_C3_witness :
    DbAction.dropTables managedTables ∈ (createDatabaseT 5 (Store.mk 0 [("payment", 3)])).2 ∧
    Database.create_database 5 (Database.create_database 5 (Store.mk 0 [("payment", 3)]))
      = Database.create_database 5 (Store.mk 0 [("payment", 3)]) :=
  ⟨(claim_C3_reconcile_idempotent (Store.mk 0 [("payment", 3)]) 5 (by decide)).1,
   (claim_C3_reconcile_idempotent (Store.mk 0 [("payment", 3)]) 5 (by decide)).2.2.2.2.2⟩

/-! ## BaseModel timestamps (claim C10)

`BaseModel` declares `created_date` and `modified_date`, both
`DateTimeField(default=datetime.datetime.now)`: the defaults fire once,
when the instance is constructed.  The module defines no `save` override,
signal hook or trigger, so peewee's `save` writes the instance's current
field values to the store without mutating any field of the instance. -/

/-- A `BaseModel` row instance: the two implicit timestamp fields plus the
model's remaining fields as an association list.  Timestamps are modelled
as integers (their only role in the claims is identity over time). -/
structure BaseRecord where
  created_date : Int
  modified_date : Int
  fields : List (String × PyValue)
deriving DecidableEq

/-- Construction of a fresh `BaseModel` instance at time `now`: both
timestamp defaults fire with the creation time. -/
def BaseRecord.new (now : Int) : BaseRecord :=
  { created_date := now, modified_date := now, fields := [] }

/-- The operations this layer performs on a record instance after
construction: explicit assignment to an ordinary field, explicit
assignment to `modified_date` itself, and `save`. -/
inductive RecordOp where
  | assignField (name : String) (v : PyValue)
  | assignModifiedDate (t : Int)
  | save
deriving DecidableEq

/-- Whether an operation is an explicit assignment to `modified_date`. -/
def RecordOp.isAssignModifiedDate : RecordOp → Bool
  | .assignModifiedDate _ => true
  | _ => false

/-- One operation applied to the instance and the saved-rows store:
assignments update the instance only; `save` appends a snapshot of the
instance to the store and — since this layer installs no hook refreshing
timestamps — leaves every field of the instance as it is. -/
def RecordOp.apply : BaseRecord × List BaseRecord → RecordOp → BaseRecord × List BaseRecord
  | (r, store), .assignField n v =>
    ({ r with fields := (n, v) :: r.fields.filter (fun p => !(p.1 == n)) }, store)
  | (r, store), .assignModifiedDate t => ({ r with modified_date := t }, store)
  | (r, store), .save => (r, store ++ [r])

/-- A sequence of operations run on an instance and a store. -/
def RecordOp.run (r : BaseRecord) (store : List BaseRecord) (ops : List RecordOp) :
    BaseRecord × List BaseRecord :=
  ops.foldl RecordOp.apply (r, store)

theorem RecordOp.run_modified_date (ops : List RecordOp) :
    ∀ (r : BaseRecord) (store : List BaseRecord),
    ops.all (fun op => !op.isAssignModifiedDate) = true →
    (RecordOp.run r store ops).1.modified_date = r.modified_date := by
  induction ops with
  | nil => intro r store _; rfl
  | cons op ops ih =>
    intro r store h
    rw [List.all_cons, Bool.and_eq_true] at h
    rw [RecordOp.run, List.foldl_cons]
    have hstep : ∀ p : BaseRecord × List BaseRecord,
        (RecordOp.apply p op).1.modified_date = p.1.modified_date ∨
          op.isAssignModifiedDate = true := by
      intro p
      cases op with
      | assignField n v =>
        left
        obtain ⟨r', store'⟩ := p
        rfl
      | assignModifiedDate t => right; rfl
      | save =>
        left
        obtain ⟨r', store'⟩ := p
        rfl
    rcases hstep (r, store) with hkeep | hbad
    · rw [show List.foldl RecordOp.apply (RecordOp.apply (r, store) op) ops
        = RecordOp.run (RecordOp.apply (r, store) op).1 (RecordOp.apply (r, store) op).2 ops
        from rfl]
      rw [ih (RecordOp.apply (r, store) op).1 (RecordOp.apply (r, store) op).2 h.2, hkeep]
    · rw [hbad] at h
      exact absurd h.1 (by simp)

/-! ## Claim C10 -/

/-- C10: `modified_date` is assigned only at record construction, where it
defaults to the creation time (equal to `created_date`); no save or
ordinary field assignment of this layer refreshes it: after any sequence
of field assignments and saves that does not explicitly assign
`modified_date`, it still equals its creation-time value. -/
theorem claim_C10_modified_date_frame (now : Int) (store : List BaseRecord)
    (ops : List RecordOp) (h : ops.all (fun op => !op.isAssignModifiedDate) = true) :
    (BaseRecord.new now).modified_date = now ∧
    (BaseRecord.new now).modified_date = (BaseRecord.new now).created_date ∧
    (RecordOp.run (BaseRecord.new now) store ops).1.modified_date = now :=
  ⟨rfl, rfl, RecordOp.run_modified_date ops (BaseRecord.new now) store h⟩

/-- Witness for C10: assign a field and save twice; `modified_date` still
reads the creation time 100. -/
theorem claim_C10_witness :
    ([RecordOp.assignField "value" (.pyInt 7), RecordOp.save, RecordOp.save].all
      (fun op => !op.isAssignModifiedDate) = true) ∧
    (RecordOp.run (BaseRecord.new 100) []
      [RecordOp.assignField "value" (.pyInt 7), RecordOp.save, RecordOp.save]).1.modified_date
      = 100 :=
  ⟨by decide,
   (claim_C10_modified_date_frame 100 []
     [RecordOp.assignField "value" (.pyInt 7), RecordOp.save, RecordOp.save] (by decide)).2.2⟩
